import Mathlib

/-!
Verification of the LanceDB TypeScript client utilities and of the hybrid
query pipeline described in the design document.

The embedded code comes from:
- src/nodejs/lancedb/util.ts (namespace TsUtil): toSQL and TTLCache;
- src/unnamed/part_000 (namespace Part000): the switch-based toSQL and the
  TTLCache of that file;
- src/node/native.js: convertToTable;
- the hybrid executor, query validation and the RRF reranker, whose
  implementation is not part of the source tree (only the native Query
  declaration in src/nodejs/vectordb/table.ts and the reranker tests in
  src/unnamed/part_001 are): these are modelled from the spec, see the
  doc comments marked with the words Modelled from the spec.
-/

mutual

/-- JavaScript runtime values as far as toSQL can observe them.  The TS type
IntoSql is the union string, number, boolean, null, Date, IntoSql array; at
runtime a value outside that union can still reach toSQL, which is what the
constructors undef and obj stand for, and an array cell may hold any runtime
value.  Numbers are modelled as integers (their toString agrees with the JS
rendering of integral numbers).  A Date is either valid, modelled by the
string its toISOString method returns, which is the only observation the
code makes of it, or the Invalid Date produced for example by the
expression new Date(NaN), on which toISOString throws a RangeError. -/
inductive JsVal where
  | str (s : String)
  | num (n : Int)
  | bool (b : Bool)
  | null
  | date (iso : String)
  | invalidDate
  | arr (xs : JsList)
  | undef
  | obj
deriving DecidableEq, Repr

/-- A JS array of runtime values, as the cells toSQL recurses into. -/
inductive JsList where
  | nil
  | cons (hd : JsVal) (tl : JsList)
deriving DecidableEq, Repr

end

/-- Length of a modelled JS array, as its length property reports it. -/
def JsList.length : JsList → Nat
  | .nil => 0
  | .cons _ tl => tl.length + 1

/-- View of a modelled JS array as a Lean list. -/
def JsList.toList : JsList → List JsVal
  | .nil => []
  | .cons hd tl => hd :: tl.toList

/-- The single-quote character used by toSQL, written by code point. -/
def squote : String := "\x27"

namespace TsUtil

mutual

/-- Embedding of toSQL from src/nodejs/lancedb/util.ts.  The source is an
if-chain testing, in this order: typeof string, typeof number, typeof
boolean, null, instanceof Date, Array.isArray; the fall-through throws
an Unsupported value type error, modelled as the error case. -/
def toSQL : JsVal → Except String String
  | .str s => .ok (squote ++ s ++ squote)
  | .num n => .ok (toString n)
  | .bool b => .ok (if b then "TRUE" else "FALSE")
  | .null => .ok "NULL"
  | .date iso => .ok (squote ++ iso ++ squote)
  | .invalidDate => .error "RangeError: Invalid time value"
  | .arr xs =>
    match toSQLItems xs with
    | .ok parts => .ok ("[" ++ String.intercalate ", " parts ++ "]")
    | .error e => .error e
  | .undef => .error "Unsupported value type"
  | .obj => .error "Unsupported value type"
termination_by structural v => v

/-- The value.map with toSQL then join step of the array branch: renders each
cell in order, propagating the first thrown error. -/
def toSQLItems : JsList → Except String (List String)
  | .nil => .ok []
  | .cons hd tl =>
    match toSQL hd with
    | .error e => .error e
    | .ok s =>
      match toSQLItems tl with
      | .error e => .error e
      | .ok rest => .ok (s :: rest)
termination_by structural v => v

end

end TsUtil

namespace Part000

mutual

/-- Embedding of toSQL from src/unnamed/part_000.  The source is a
switch true statement whose cases test, in this order: typeof string,
typeof number, typeof boolean, null, instanceof Date, Array.isArray;
the default case throws, modelled as the error case. -/
def toSQL : JsVal → Except String String
  | .str s => .ok (squote ++ s ++ squote)
  | .num n => .ok (toString n)
  | .bool b => .ok (if b then "TRUE" else "FALSE")
  | .null => .ok "NULL"
  | .date iso => .ok (squote ++ iso ++ squote)
  | .invalidDate => .error "RangeError: Invalid time value"
  | .arr xs =>
    match toSQLItems xs with
    | .ok parts => .ok ("[" ++ String.intercalate ", " parts ++ "]")
    | .error e => .error e
  | .undef => .error "Unsupported value type"
  | .obj => .error "Unsupported value type"
termination_by structural v => v

/-- The array-branch map and join of the part_000 toSQL. -/
def toSQLItems : JsList → Except String (List String)
  | .nil => .ok []
  | .cons hd tl =>
    match toSQL hd with
    | .error e => .error e
    | .ok s =>
      match toSQLItems tl with
      | .error e => .error e
      | .ok rest => .ok (s :: rest)
termination_by structural v => v

end

end Part000

mutual

/-- Membership of a runtime value in the TS type IntoSql: one of the six
union members, with arrays again containing only IntoSql values. -/
def isIntoSql : JsVal → Bool
  | .str _ => true
  | .num _ => true
  | .bool _ => true
  | .null => true
  | .date _ => true
  | .invalidDate => true
  | .arr xs => isIntoSqlItems xs
  | .undef => false
  | .obj => false
termination_by structural v => v

/-- Every cell of the array is an IntoSql value. -/
def isIntoSqlItems : JsList → Bool
  | .nil => true
  | .cons hd tl => isIntoSql hd && isIntoSqlItems tl
termination_by structural v => v

end

mutual

/-- The value contains no Invalid Date, so every toISOString call made
while rendering it returns normally. -/
def noInvalidDate : JsVal → Bool
  | .str _ => true
  | .num _ => true
  | .bool _ => true
  | .null => true
  | .date _ => true
  | .invalidDate => false
  | .arr xs => noInvalidDateItems xs
  | .undef => true
  | .obj => true
termination_by structural v => v

/-- No cell of the array contains an Invalid Date. -/
def noInvalidDateItems : JsList → Bool
  | .nil => true
  | .cons hd tl => noInvalidDate hd && noInvalidDateItems tl
termination_by structural v => v

end

/-- Decidable equality for Except values, used to evaluate the embedded
functions on concrete inputs. -/
instance instDecEqExcept {ε α : Type} [DecidableEq ε] [DecidableEq α] :
    DecidableEq (Except ε α)
  | .ok a, .ok b =>
    match decEq a b with
    | isTrue h => isTrue (by rw [h])
    | isFalse h => isFalse (by intro hc; cases hc; exact h rfl)
  | .ok _, .error _ => isFalse (by intro hc; cases hc)
  | .error _, .ok _ => isFalse (by intro hc; cases hc)
  | .error e, .error f =>
    match decEq e f with
    | isTrue h => isTrue (by rw [h])
    | isFalse h => isFalse (by intro hc; cases hc; exact h rfl)

/-- A cache entry as the TS object with fields value and expires, the
latter an absolute time in milliseconds. -/
structure CacheEntry (α : Type) where
  value : α
  expires : Nat
deriving DecidableEq, Repr

/- The JS Map operations that both TTLCache implementations rely on,
modelled on an association list in insertion order. -/
namespace JsMap

/-- Map.prototype.get: the value stored under the key, if any.  Also used
for property access on a modelled JS object. -/
def get {β : Type} : List (String × β) → String → Option β
  | [], _ => none
  | p :: rest, k => if p.1 == k then some p.2 else get rest k

/-- Map.prototype.set: overwrites in place if the key is present, appends
otherwise. -/
def set {β : Type} (m : List (String × β)) (k : String) (v : β) :
    List (String × β) :=
  match m with
  | [] => [(k, v)]
  | (k0, v0) :: rest =>
    if k0 == k then (k0, v) :: rest else (k0, v0) :: set rest k v

/-- Map.prototype.delete: removes the binding of the key. -/
def del {β : Type} : List (String × β) → String → List (String × β)
  | [], _ => []
  | p :: rest, k => if p.1 == k then del rest k else p :: del rest k

end JsMap

/-- A TTL cache: the ttl in milliseconds given to the constructor and the
backing Map from keys to entries.  The state is shared by both embedded
implementations, which define their own operations on it. -/
structure TTLCache (α : Type) where
  ttl : Nat
  cache : List (String × CacheEntry α)
deriving DecidableEq, Repr

/-- One step of a client interaction with a TTL cache: a get or set at a
given current time, or a delete. -/
inductive CacheOp (α : Type) where
  | getOp (now : Nat) (k : String)
  | setOp (now : Nat) (k : String) (v : α)
  | delOp (k : String)

namespace TsUtil

/-- Embedding of TTLCache.get from src/nodejs/lancedb/util.ts: a missing
entry is a miss; an entry with expires strictly before now is deleted and
reported as a miss; otherwise the stored value is returned.  The current
time Date.now() is passed explicitly.  The returned pair is the lookup
result and the cache state after the call. -/
def TTLCache.get {α : Type} (c : TTLCache α) (now : Nat) (k : String) :
    Option α × TTLCache α :=
  match JsMap.get c.cache k with
  | none => (none, c)
  | some entry =>
    if entry.expires < now then
      (none, { c with cache := JsMap.del c.cache k })
    else
      (some entry.value, c)

/-- Embedding of TTLCache.set from src/nodejs/lancedb/util.ts: stores the
value under the key with expires equal to now plus the ttl. -/
def TTLCache.set {α : Type} (c : TTLCache α) (now : Nat) (k : String)
    (v : α) : TTLCache α :=
  { c with cache := JsMap.set c.cache k ⟨v, now + c.ttl⟩ }

/-- Embedding of TTLCache.delete from src/nodejs/lancedb/util.ts: removes
the binding of the key from the Map. -/
def TTLCache.delete {α : Type} (c : TTLCache α) (k : String) : TTLCache α :=
  { c with cache := JsMap.del c.cache k }

/-- Runs a sequence of cache operations against the util.ts implementation,
collecting the result of each get and the final cache state. -/
def TTLCache.run {α : Type} (c : TTLCache α) :
    List (CacheOp α) → List (Option α) × TTLCache α
  | [] => ([], c)
  | .getOp now k :: ops =>
    let step := TTLCache.get c now k
    let rest := TTLCache.run step.2 ops
    (step.1 :: rest.1, rest.2)
  | .setOp now k v :: ops => TTLCache.run (TTLCache.set c now k v) ops
  | .delOp k :: ops => TTLCache.run (TTLCache.delete c k) ops

end TsUtil

namespace Part000

/-- Embedding of TTLCache.get from src/unnamed/part_000; the source text of
the class is the same as in util.ts. -/
def TTLCache.get {α : Type} (c : TTLCache α) (now : Nat) (k : String) :
    Option α × TTLCache α :=
  match JsMap.get c.cache k with
  | none => (none, c)
  | some entry =>
    if entry.expires < now then
      (none, { c with cache := JsMap.del c.cache k })
    else
      (some entry.value, c)

/-- Embedding of TTLCache.set from src/unnamed/part_000. -/
def TTLCache.set {α : Type} (c : TTLCache α) (now : Nat) (k : String)
    (v : α) : TTLCache α :=
  { c with cache := JsMap.set c.cache k ⟨v, now + c.ttl⟩ }

/-- Embedding of TTLCache.delete from src/unnamed/part_000. -/
def TTLCache.delete {α : Type} (c : TTLCache α) (k : String) : TTLCache α :=
  { c with cache := JsMap.del c.cache k }

/-- Runs a sequence of cache operations against the part_000
implementation, collecting the result of each get and the final state. -/
def TTLCache.run {α : Type} (c : TTLCache α) :
    List (CacheOp α) → List (Option α) × TTLCache α
  | [] => ([], c)
  | .getOp now k :: ops =>
    let step := TTLCache.get c now k
    let rest := TTLCache.run step.2 ops
    (step.1 :: rest.1, rest.2)
  | .setOp now k v :: ops => TTLCache.run (TTLCache.set c now k v) ops
  | .delOp k :: ops => TTLCache.run (TTLCache.delete c k) ops

end Part000

/-- A record handed to convertToTable: a JS object, modelled as an
association list from property names to runtime values; property access
uses the same lookup as the Map model. -/
abbrev JsRecord := List (String × JsVal)

/-- Object.keys of a record, in property order. -/
def keys (r : JsRecord) : List String := r.map Prod.fst

/-- Errors that convertToTable can raise: an Error with a message thrown
by the function itself, or a TypeError from reading the length property
of undefined or null. -/
inductive JsError where
  | message (s : String)
  | typeError
deriving DecidableEq, Repr

/-- Reading the length property of a JS value: arrays and strings report
their length, most other values report undefined (modelled as none), and
the read throws a TypeError on undefined and null. -/
def jsLength : Option JsVal → Except JsError (Option Nat)
  | none => .error .typeError
  | some (.arr xs) => .ok (some xs.length)
  | some (.str s) => .ok (some s.length)
  | some .null => .error .typeError
  | some .undef => .error .typeError
  | some (.num _) => .ok none
  | some (.bool _) => .ok none
  | some (.date _) => .ok none
  | some .invalidDate => .ok none
  | some .obj => .ok none

/-- The length of the vector property of a record, as the expression
reading datum.vector.length evaluates in convertToTable. -/
def vecLenOf (r : JsRecord) : Except JsError (Option Nat) :=
  jsLength (JsMap.get r "vector")

/-- Rendering of the expected size in the Invalid vector size message. -/
def showLen : Option Nat → String
  | some n => toString n
  | none => "undefined"

/-- The message of the error thrown on a vector length mismatch. -/
def invalidMsg (sz : Option Nat) : String :=
  "Invalid vector size, expected " ++ showLen sz

/-- Sequential effectful map over a list, stopping at the first error:
the shape of the for loops in convertToTable. -/
def exceptMap {ε α β : Type} (f : α → Except ε β) : List α → Except ε (List β)
  | [] => .ok []
  | x :: xs =>
    match f x with
    | .error e => .error e
    | .ok y =>
      match exceptMap f xs with
      | .error e => .error e
      | .ok ys => .ok (y :: ys)

/-- One loop step of the vector branch of convertToTable: reads the vector
length of the record, throws Invalid vector size when it differs from the
expected size, and otherwise yields the vector value to append. -/
def vecCell (sz : Option Nat) (r : JsRecord) : Except JsError (Option JsVal) :=
  match vecLenOf r with
  | .error e => .error e
  | .ok len =>
    if len == sz then .ok (JsMap.get r "vector")
    else .error (.message (invalidMsg sz))

/-- The vector branch of convertToTable: walks all records in order,
throwing Invalid vector size on the first record whose vector length
differs from the expected size, and collecting the vector values. -/
def vectorColumn (data : List JsRecord) (sz : Option Nat) :
    Except JsError (List (Option JsVal)) :=
  exceptMap (vecCell sz) data

/-- One loop step of the column loop of convertToTable: the vector column
runs the size-checked vector branch, every other column collects the
(possibly undefined) values of the records. -/
def buildCol (data : List JsRecord) (first : JsRecord) (k : String) :
    Except JsError (String × List (Option JsVal)) :=
  if k == "vector" then
    match vecLenOf first with
    | .error e => .error e
    | .ok sz =>
      match vectorColumn data sz with
      | .error e => .error e
      | .ok col => .ok (k, col)
  else .ok (k, data.map (fun r => JsMap.get r k))

/-- Embedding of convertToTable from src/node/native.js: an empty record
array throws; otherwise one column is built per key of the first record,
the vector column with the size check against the first record, every
other column by collecting the (possibly undefined) values. -/
def convertToTable (data : List JsRecord) :
    Except JsError (List (String × List (Option JsVal))) :=
  match data with
  | [] => .error (.message "At least one record needs to be provided")
  | first :: rest => exceptMap (buildCol (first :: rest) first) (keys first)

namespace Hybrid

/-- A cell value inside a result row: the numeric scores the pipeline reads
are exact rationals in the model, other payload cells are strings. -/
inductive DbValue where
  | num (q : ℚ)
  | str (s : String)
deriving DecidableEq, Repr

/-- A result row, as the mapping from column names to values that a
RecordBatch row materializes to. -/
abbrev Row := List (String × DbValue)

/-- Column access on a row. -/
def rowGet : Row → String → Option DbValue
  | [], _ => none
  | p :: rest, k => if p.1 == k then some p.2 else rowGet rest k

/-- Sets a column of a row to a value, replacing any previous binding. -/
def setCol (r : Row) (k : String) (v : DbValue) : Row :=
  r.filter (fun p => ¬ p.1 == k) ++ [(k, v)]

/-- The relevance score carried by a row in its reserved column, when the
column is present and numeric. -/
def getScore (r : Row) : Option ℚ :=
  match rowGet r "_relevance_score" with
  | some (.num q) => some q
  | _ => none

/-- The sort key the post-merge step orders by: the relevance score, zero
when a row carries none. -/
def keyScore (r : Row) : ℚ := (getScore r).getD 0

/-- Removes later duplicates from a list, keeping the first occurrence of
each element: the dedup by full row-value identity of the post-merge
step. -/
def dedupFirst {α : Type} [DecidableEq α] : List α → List α
  | [] => []
  | x :: xs => x :: (dedupFirst xs).filter (fun y => ¬ y == x)

/-- Insertion into a list sorted by the given boolean comparison. -/
def insertLe {α : Type} (le : α → α → Bool) (a : α) : List α → List α
  | [] => [a]
  | b :: bs => if le a b then a :: b :: bs else b :: insertLe le a bs

/-- Insertion sort by the given boolean comparison; stable, since an
element is inserted behind the already placed elements it ties with. -/
def sortLe {α : Type} (le : α → α → Bool) : List α → List α
  | [] => []
  | a :: rest => insertLe le a (sortLe le rest)

/-- The comparison of the post-merge sort: descending relevance score. -/
def scoreDescLe (a b : Row) : Bool := keyScore b ≤ keyScore a

/-- Modelled from the spec: the errors of the hybrid pipeline, namely
ValidationError from the checks run at execute time and
ContractViolationError from the reranker output checks; the executor
implementation is not part of the source tree. -/
inductive QError where
  | validationError (msg : String)
  | contractViolationError (msg : String)
deriving DecidableEq, Repr

/-- Modelled from the spec: the reranker capability set.  rerankHybrid is
mandatory and receives the text query and both result lists; the two
single-path operations are optional. -/
structure Reranker where
  rerankVector : Option (List Row → List Row)
  rerankFts : Option (List Row → List Row)
  rerankHybrid : String → List Row → List Row → List Row

/-- Modelled from the spec: the SearchRequest accumulated by the query
builder.  The offset field is carried but given no semantics here because
the spec assigns it none in the merge pipeline.  An empty selectColumns
means all columns. -/
structure SearchRequest where
  vectorQuery : Option (List ℚ) := none
  textQuery : Option String := none
  filterPredicate : Option String := none
  limit : Int := 10
  offset : Nat := 0
  selectColumns : List String := []
  prefilter : Bool := true
  nprobes : Option Nat := none
  refineFactor : Option Nat := none
  reranker : Option Reranker := none

/-- Modelled from the spec: the native search collaborator, a black box
returning scored rows for each path; the scan entry stands for the plain
scan used when neither search mode is set, which the spec leaves to the
native engine. -/
structure NativeEngine where
  vectorSearch : List ℚ → Option String → Bool → Option Nat → Option Nat →
    Int → List Row
  fullTextSearch : String → Option String → Bool → Int → List Row
  scan : Option String → Int → List Row

/-- Modelled from the spec: the builder methods of the fluent query
builder, one constructor per accumulation step. -/
inductive BuilderOp where
  | vector (v : List ℚ)
  | fullTextSearch (t : String)
  | whereClause (p : String)
  | select (cols : List String)
  | limitTo (n : Int)
  | withPrefilter (b : Bool)
  | rerank (r : Reranker)
  | nprobes (n : Nat)
  | refineFactor (n : Nat)

/-- Modelled from the spec: one accumulation step of the query builder;
every method only records its argument, no validation happens here. -/
def applyOp (req : SearchRequest) : BuilderOp → SearchRequest
  | .vector v => { req with vectorQuery := some v }
  | .fullTextSearch t => { req with textQuery := some t }
  | .whereClause p => { req with filterPredicate := some p }
  | .select cols => { req with selectColumns := cols }
  | .limitTo n => { req with limit := n }
  | .withPrefilter b => { req with prefilter := b }
  | .rerank r => { req with reranker := some r }
  | .nprobes n => { req with nprobes := some n }
  | .refineFactor n => { req with refineFactor := some n }

/-- Modelled from the spec: the request built by a sequence of builder
calls in any order, starting from the default request. -/
def buildRequest (ops : List BuilderOp) : SearchRequest :=
  ops.foldl applyOp {}

/-- Modelled from the spec: the validation run at execute time, failing
with ValidationError when the limit is not positive, or when a reranker
is set but neither a vector query nor a text query is configured. -/
def validate (req : SearchRequest) : Except QError Unit :=
  if req.limit ≤ 0 then
    .error (.validationError "limit must be positive")
  else
    match req.reranker, req.vectorQuery, req.textQuery with
    | some _, none, none =>
      .error (.validationError "reranker is set but no search mode is configured")
    | _, _, _ => .ok ()

/-- Modelled from the spec: the checks on a reranker result, failing with
ContractViolationError when it has more rows than the union of its inputs
or a row without a numeric relevance score. -/
def checkContract (unionLen : Nat) (out : List Row) : Except QError (List Row) :=
  if unionLen < out.length then
    .error (.contractViolationError "reranker returned more rows than its inputs")
  else if out.all (fun r => (getScore r).isSome) then .ok out
  else .error (.contractViolationError "reranker omitted the relevance score")

/-- Modelled from the spec: single-path pass-through scoring for the
vector path, deriving the relevance score as the negated distance. -/
def passVec (r : Row) : Row :=
  match rowGet r "_distance" with
  | some (.num d) => setCol r "_relevance_score" (.num (-d))
  | _ => r

/-- Modelled from the spec: single-path pass-through scoring for the FTS
path, deriving the relevance score as the raw FTS score. -/
def passFts (r : Row) : Row :=
  match rowGet r "_score" with
  | some (.num s) => setCol r "_relevance_score" (.num s)
  | _ => r

/-- Modelled from the spec: the 1-based rank of a row in a result list,
none when the row does not occur in it. -/
def rankIn (rows : List Row) (r : Row) : Option Nat :=
  match rows.findIdx? (fun x => x == r) with
  | some i => some (i + 1)
  | none => none

/-- Modelled from the spec: the contribution of one list to the RRF score
of a row, 1 / (k + rank) when the row is in the list and 0 otherwise. -/
def rrfContrib (k : ℚ) : Option Nat → ℚ
  | some i => 1 / (k + (i : ℚ))
  | none => 0

/-- Modelled from the spec: the RRF score of a row, the sum of the
contributions of the vector list and the FTS list. -/
def rrfScore (k : ℚ) (vec fts : List Row) (r : Row) : ℚ :=
  rrfContrib k (rankIn vec r) + rrfContrib k (rankIn fts r)

/-- Rank used by the RRF tie break, with absent rows ranked past the
end of the list. -/
def rankKey (rows : List Row) (r : Row) : Nat :=
  (rankIn rows r).getD (rows.length + 1)

/-- Modelled from the spec: the RRF ordering on index-tagged rows, namely
descending score, ties broken by vector rank, then FTS rank, then the
original insertion order carried by the index. -/
def rrfBefore (k : ℚ) (vec fts : List Row) (p q : Nat × Row) : Bool :=
  if rrfScore k vec fts q.2 < rrfScore k vec fts p.2 then true
  else if rrfScore k vec fts p.2 < rrfScore k vec fts q.2 then false
  else if rankKey vec p.2 < rankKey vec q.2 then true
  else if rankKey vec q.2 < rankKey vec p.2 then false
  else if rankKey fts p.2 < rankKey fts q.2 then true
  else if rankKey fts q.2 < rankKey fts p.2 then false
  else p.1 ≤ q.1

/-- Modelled from the spec: the built-in RRF reranker for the hybrid path:
it scores the union of the two lists with the reciprocal rank formula,
orders by the RRF ordering, and writes each score into the reserved
relevance score column. -/
def rrfRerank (k : ℚ) (vec fts : List Row) : List Row :=
  let union := dedupFirst (vec ++ fts)
  (sortLe (rrfBefore k vec fts) union.enum).map
    (fun p => setCol p.2 "_relevance_score" (.num (rrfScore k vec fts p.2)))

/-- Modelled from the spec: the reranker used by the hybrid path when none
is configured, RRF with the default constant 60. -/
def defaultRRF : Reranker :=
  ⟨none, none, fun _ vec fts => rrfRerank 60 vec fts⟩

/-- Modelled from the spec, amended where the reranker test of
src/unnamed/part_001 pins the behaviour: the final column projection.
The path-native score columns are dropped unless explicitly named in the
selection, but the relevance score column is always retained: the test
selects only the text column and still expects the relevance score in
the output rows. -/
def projectRow (cols : List String) (r : Row) : Row :=
  match cols with
  | [] => r.filter (fun p => !(p.1 == "_distance" || p.1 == "_score"))
  | _ => r.filter (fun p => cols.contains p.1 || p.1 == "_relevance_score")

/-- Modelled from the spec: the post-merge steps of the hybrid executor in
order: dedup by row identity, sort descending by relevance score,
truncate to the limit, project the columns. -/
def finalize (req : SearchRequest) (rows : List Row) : List Row :=
  (((sortLe scoreDescLe (dedupFirst rows)).take req.limit.toNat).map
    (projectRow req.selectColumns))

/-- Modelled from the spec: the hybrid executor.  After validation, the
mode is selected from the request: both queries set means hybrid (join
both native paths, then the hybrid reranker, then the contract checks),
one query set means that single path (its reranker operation when
configured, the pass-through scoring otherwise), no query set means the
plain native scan.  Every successful branch ends in the post-merge
steps. -/
def execute (req : SearchRequest) (engine : NativeEngine) :
    Except QError (List Row) :=
  match validate req with
  | .error e => .error e
  | .ok _ =>
    match req.vectorQuery, req.textQuery with
    | some v, some t =>
      let vecRes := engine.vectorSearch v req.filterPredicate req.prefilter
        req.nprobes req.refineFactor req.limit
      let ftsRes := engine.fullTextSearch t req.filterPredicate req.prefilter
        req.limit
      let rr := req.reranker.getD defaultRRF
      match checkContract (dedupFirst (vecRes ++ ftsRes)).length
          (rr.rerankHybrid t vecRes ftsRes) with
      | .error e => .error e
      | .ok merged => .ok (finalize req merged)
    | some v, none =>
      let vecRes := engine.vectorSearch v req.filterPredicate req.prefilter
        req.nprobes req.refineFactor req.limit
      match req.reranker with
      | some rr =>
        match rr.rerankVector with
        | some f =>
          match checkContract (dedupFirst vecRes).length (f vecRes) with
          | .error e => .error e
          | .ok merged => .ok (finalize req merged)
        | none => .ok (finalize req (vecRes.map passVec))
      | none => .ok (finalize req (vecRes.map passVec))
    | none, some t =>
      let ftsRes := engine.fullTextSearch t req.filterPredicate req.prefilter
        req.limit
      match req.reranker with
      | some rr =>
        match rr.rerankFts with
        | some f =>
          match checkContract (dedupFirst ftsRes).length (f ftsRes) with
          | .error e => .error e
          | .ok merged => .ok (finalize req merged)
        | none => .ok (finalize req (ftsRes.map passFts))
      | none => .ok (finalize req (ftsRes.map passFts))
    | none, none =>
      .ok (finalize req (engine.scan req.filterPredicate req.limit))

end Hybrid

/- Concrete inputs used to evaluate the embedded functions in the closed
theorems below. -/

/-- A cache holding the entry written by set a 1 at time 0 with a ttl of
100 milliseconds, so with expires at 100. -/
def exCache : TTLCache Nat := TsUtil.TTLCache.set ⟨100, []⟩ 0 "a" 1

/-- A cache holding an already stale entry under the key a. -/
def exStale : TTLCache Nat := ⟨100, [("a", ⟨7, 3⟩)]⟩

/-- A cache holding two live entries. -/
def exTwo : TTLCache Nat := ⟨100, [("a", ⟨1, 50⟩), ("b", ⟨2, 60⟩)]⟩

/-- First record of the convertToTable example: a two-element vector and a
price column. -/
def exRec1 : JsRecord :=
  [("vector", .arr (.cons (.num 1) (.cons (.num 2) .nil))), ("price", .num 10)]

/-- Second record of the convertToTable example: a one-element vector, so
its length disagrees with the first record. -/
def exRec2 : JsRecord := [("vector", .arr (.cons (.num 3) .nil))]

/-- Third record: a two-element vector matching the first record. -/
def exRec3 : JsRecord :=
  [("vector", .arr (.cons (.num 4) (.cons (.num 5) .nil))), ("price", .num 20)]

/-- A nested IntoSql value exercising every union member, with a string
cell that itself contains a single-quote character. -/
def exIntoSql : JsVal :=
  .arr (.cons (.str ("O" ++ squote ++ "x"))
    (.cons (.num 3)
      (.cons (.bool true)
        (.cons .null
          (.cons (.date "2024-01-01T00:00:00.000Z")
            (.cons (.arr (.cons (.num (-2)) .nil)) .nil))))))

namespace Hybrid

/-- Rows named by an id column, used for the RRF example of the spec. -/
def rowA : Row := [("id", .str "A")]

/-- Second row of the RRF example. -/
def rowB : Row := [("id", .str "B")]

/-- Third row of the RRF example. -/
def rowC : Row := [("id", .str "C")]

/-- A reranker returning two fixed rows with literal scores. -/
def exReranker : Reranker :=
  ⟨none, none, fun _ _ _ =>
    [[("id", .str "a"), ("_relevance_score", .num 3)],
     [("id", .str "b"), ("_relevance_score", .num 1)]]⟩

/-- A hybrid request with limit 5 using the fixed reranker. -/
def exReq : SearchRequest :=
  { vectorQuery := some [1], textQuery := some "q", limit := 5,
    reranker := some exReranker }

/-- A native engine returning fixed rows on each path. -/
def exEngine : NativeEngine :=
  ⟨fun _ _ _ _ _ _ => [[("id", .str "a")], [("id", .str "b")]],
   fun _ _ _ _ => [[("id", .str "c")]],
   fun _ _ => []⟩

/-- The reranker of the custom-reranker test of src/unnamed/part_001: it
ignores its inputs and returns one fixed row carrying a relevance
score. -/
def testReranker : Reranker :=
  ⟨none, none, fun _ _ _ =>
    [[("text", .str "albert"), ("_relevance_score", .num 99)]]⟩

/-- The request of the custom-reranker test: hybrid search with the custom
reranker, selecting only the text column, limit 5. -/
def testReq : SearchRequest :=
  { vectorQuery := some [1, 1], textQuery := some "dog", limit := 5,
    selectColumns := ["text"], reranker := some testReranker }

/-- An engine standing for the two-row table of the reranker test. -/
def testEngine : NativeEngine :=
  ⟨fun _ _ _ _ _ _ =>
    [[("text", .str "dog"), ("_distance", .num 0)],
     [("text", .str "cat"), ("_distance", .num 2)]],
   fun _ _ _ _ => [[("text", .str "dog"), ("_score", .num 1)]],
   fun _ _ => []⟩

/-- The single output row of the custom-reranker test scenario. -/
def testOutRow : Row := [("text", .str "albert"), ("_relevance_score", .num 99)]

/-- The output of the executor on the fixed request and engine. -/
def exOut : List Row :=
  [[("id", .str "a"), ("_relevance_score", .num 3)],
   [("id", .str "b"), ("_relevance_score", .num 1)]]

end Hybrid

theorem jsmap_get_set_self {β : Type} (m : List (String × β)) (k : String)
    (v : β) : JsMap.get (JsMap.set m k v) k = some v := by
  induction m with
  | nil => simp [JsMap.set, JsMap.get]
  | cons p rest ih =>
    obtain ⟨k0, v0⟩ := p
    by_cases h : k0 = k
    · simp [JsMap.set, JsMap.get, h]
    · simp [JsMap.set, JsMap.get, h, ih]

theorem jsmap_get_del_self {β : Type} (m : List (String × β)) (k : String) :
    JsMap.get (JsMap.del m k) k = none := by
  induction m with
  | nil => simp [JsMap.del, JsMap.get]
  | cons p rest ih =>
    obtain ⟨k0, v0⟩ := p
    by_cases h : k0 = k
    · simp [JsMap.del, JsMap.get, h, ih]
    · simp [JsMap.del, JsMap.get, h, ih]

theorem jsmap_get_del_other {β : Type} (m : List (String × β)) (k k2 : String)
    (hne : k2 ≠ k) : JsMap.get (JsMap.del m k) k2 = JsMap.get m k2 := by
  induction m with
  | nil => rfl
  | cons p rest ih =>
    obtain ⟨k0, v0⟩ := p
    by_cases h : k0 = k
    · subst h
      simp [JsMap.del, JsMap.get, (Ne.symm hne : k0 ≠ k2), ih]
    · by_cases h2 : k0 = k2
      · simp [JsMap.del, JsMap.get, h, h2, hne]
      · simp [JsMap.del, JsMap.get, h, h2, ih]

/-- Claim C3, amended at the expiry boundary: get returns the stored value
exactly when now is less than or equal to the expiry time of the entry
(the code misses only when the expiry is strictly less than now); on a
miss of a present entry, the entry is deleted and a direct inspection of
the resulting cache finds it absent. -/
theorem claim_C3 {α : Type} (c : TTLCache α) (now : Nat) (k : String)
    (e : CacheEntry α) (he : JsMap.get c.cache k = some e) :
    (now ≤ e.expires → TsUtil.TTLCache.get c now k = (some e.value, c)) ∧
    (e.expires < now →
      TsUtil.TTLCache.get c now k = (none, ⟨c.ttl, JsMap.del c.cache k⟩) ∧
      JsMap.get (JsMap.del c.cache k) k = none) := by
  constructor
  · intro h
    simp only [TsUtil.TTLCache.get, he]
    rw [if_neg (Nat.not_lt.mpr h)]
  · intro h
    refine ⟨?_, jsmap_get_del_self c.cache k⟩
    simp only [TsUtil.TTLCache.get, he]
    rw [if_pos h]

/-- Counterexample to claim C3 as stated: the claim restricts hits to
times strictly before the expiry time, but on the cache produced by set
a 1 at time 0 with ttl 100 (so expiry 100), get at time 100 returns the
stored value although 100 is not strictly before 100. -/
theorem claim_C3_counterexample :
    JsMap.get exCache.cache "a" = some ⟨1, 100⟩ ∧
    ¬ (100 < (100 : Nat)) ∧
    (TsUtil.TTLCache.get exCache 100 "a").1 = some 1 :=
  ⟨by decide, by decide, by decide⟩

/-- Witness for claim C3: the spec example itself; get at 50 hits, get at
150 misses, deletes the entry and leaves it absent. -/
theorem claim_C3_witness :
    TsUtil.TTLCache.get exCache 50 "a" = (some 1, exCache) ∧
    (TsUtil.TTLCache.get exCache 150 "a" =
        (none, ⟨exCache.ttl, JsMap.del exCache.cache "a"⟩) ∧
      JsMap.get (JsMap.del exCache.cache "a") "a" = none) :=
  ⟨(claim_C3 exCache 50 "a" ⟨1, 100⟩ (by decide)).1 (by decide),
   (claim_C3 exCache 150 "a" ⟨1, 100⟩ (by decide)).2 (by decide)⟩

/-- Claim C6: set stores unconditionally, overwriting whatever was there,
with the expiry reset to now plus the ttl, and a get before the ttl
elapses returns the new value. -/
theorem claim_C6 {α : Type} (c : TTLCache α) (now now2 : Nat) (k : String)
    (v : α) (h : now2 < now + c.ttl) :
    JsMap.get (TsUtil.TTLCache.set c now k v).cache k =
      some ⟨v, now + c.ttl⟩ ∧
    (TsUtil.TTLCache.get (TsUtil.TTLCache.set c now k v) now2 k).1 = some v := by
  have hg : JsMap.get (TsUtil.TTLCache.set c now k v).cache k =
      some ⟨v, now + c.ttl⟩ := jsmap_get_set_self c.cache k _
  refine ⟨hg, ?_⟩
  simp only [TsUtil.TTLCache.get, hg]
  rw [if_neg (by simp only [Nat.not_lt]; exact Nat.le_of_lt h)]

/-- Witness for claim C6: overwriting an already stale entry at time 200
and reading back at time 250 yields the new value. -/
theorem claim_C6_witness :
    JsMap.get (TsUtil.TTLCache.set exStale 200 "a" 5).cache "a" =
      some ⟨5, 200 + exStale.ttl⟩ ∧
    (TsUtil.TTLCache.get (TsUtil.TTLCache.set exStale 200 "a" 5) 250 "a").1 =
      some 5 :=
  claim_C6 exStale 200 250 "a" 5 (by decide)

/-- Claim C7: delete removes the entry for the key immediately whatever
its expiry state, a following get of the key misses, and the binding of
every other key is unchanged. -/
theorem claim_C7 {α : Type} (c : TTLCache α) (now : Nat) (k k2 : String)
    (hk : k2 ≠ k) :
    JsMap.get (TsUtil.TTLCache.delete c k).cache k = none ∧
    (TsUtil.TTLCache.get (TsUtil.TTLCache.delete c k) now k).1 = none ∧
    JsMap.get (TsUtil.TTLCache.delete c k).cache k2 = JsMap.get c.cache k2 := by
  have h1 : JsMap.get (TsUtil.TTLCache.delete c k).cache k = none :=
    jsmap_get_del_self c.cache k
  refine ⟨h1, ?_, jsmap_get_del_other c.cache k k2 hk⟩
  simp only [TsUtil.TTLCache.get, h1]

/-- Witness for claim C7 on a cache holding two live entries. -/
theorem claim_C7_witness :
    JsMap.get (TsUtil.TTLCache.delete exTwo "a").cache "a" = none ∧
    (TsUtil.TTLCache.get (TsUtil.TTLCache.delete exTwo "a") 10 "a").1 = none ∧
    JsMap.get (TsUtil.TTLCache.delete exTwo "a").cache "b" =
      JsMap.get exTwo.cache "b" :=
  claim_C7 exTwo 10 "a" "b" (by decide)

mutual

theorem toSQL_eqv : ∀ v : JsVal, Part000.toSQL v = TsUtil.toSQL v
  | .str _ => rfl
  | .num _ => rfl
  | .bool _ => rfl
  | .null => rfl
  | .date _ => rfl
  | .invalidDate => rfl
  | .arr xs => by
    simp only [Part000.toSQL, TsUtil.toSQL, toSQLItems_eqv xs]
  | .undef => rfl
  | .obj => rfl
termination_by structural v => v

theorem toSQLItems_eqv : ∀ xs : JsList,
    Part000.toSQLItems xs = TsUtil.toSQLItems xs
  | .nil => rfl
  | .cons hd tl => by
    simp only [Part000.toSQLItems, TsUtil.toSQLItems, toSQL_eqv hd,
      toSQLItems_eqv tl]
termination_by structural v => v

end

theorem p000_get_eq {α : Type} (c : TTLCache α) (now : Nat) (k : String) :
    Part000.TTLCache.get c now k = TsUtil.TTLCache.get c now k := rfl

theorem p000_set_eq {α : Type} (c : TTLCache α) (now : Nat) (k : String)
    (v : α) : Part000.TTLCache.set c now k v = TsUtil.TTLCache.set c now k v :=
  rfl

theorem p000_del_eq {α : Type} (c : TTLCache α) (k : String) :
    Part000.TTLCache.delete c k = TsUtil.TTLCache.delete c k := rfl

theorem ttlrun_eqv {α : Type} : ∀ (ops : List (CacheOp α)) (c : TTLCache α),
    Part000.TTLCache.run c ops = TsUtil.TTLCache.run c ops := by
  intro ops
  induction ops with
  | nil => intro c; rfl
  | cons op rest ih =>
    intro c
    cases op with
    | getOp now k =>
      simp only [Part000.TTLCache.run, TsUtil.TTLCache.run, p000_get_eq, ih]
    | setOp now k v =>
      simp only [Part000.TTLCache.run, TsUtil.TTLCache.run, p000_set_eq, ih]
    | delOp k =>
      simp only [Part000.TTLCache.run, TsUtil.TTLCache.run, p000_del_eq, ih]

/-- Claim C9: the switch-based definitions of src/unnamed/part_000 and
the if-chain definitions of src/nodejs/lancedb/util.ts agree: toSQL is
extensionally equal, and every sequence of cache operations at the same
times produces the same get results and the same final cache state. -/
theorem claim_C9 :
    (∀ v : JsVal, Part000.toSQL v = TsUtil.toSQL v) ∧
    (∀ (α : Type) (c : TTLCache α) (ops : List (CacheOp α)),
      Part000.TTLCache.run c ops = TsUtil.TTLCache.run c ops) :=
  ⟨toSQL_eqv, fun _ c ops => ttlrun_eqv ops c⟩

mutual

theorem toSQL_total : ∀ v : JsVal, isIntoSql v = true →
    noInvalidDate v = true → ∃ out, TsUtil.toSQL v = .ok out
  | .str s, _, _ => ⟨squote ++ s ++ squote, rfl⟩
  | .num n, _, _ => ⟨toString n, rfl⟩
  | .bool b, _, _ => ⟨if b then "TRUE" else "FALSE", rfl⟩
  | .null, _, _ => ⟨"NULL", rfl⟩
  | .date iso, _, _ => ⟨squote ++ iso ++ squote, rfl⟩
  | .invalidDate, _, hd => by simp [noInvalidDate] at hd
  | .arr xs, h, hd => by
    obtain ⟨ps, hps⟩ := toSQLItems_total xs (by simpa [isIntoSql] using h)
      (by simpa [noInvalidDate] using hd)
    exact ⟨"[" ++ String.intercalate ", " ps ++ "]", by
      simp only [TsUtil.toSQL, hps]⟩
  | .undef, h, _ => by simp [isIntoSql] at h
  | .obj, h, _ => by simp [isIntoSql] at h
termination_by structural v => v

theorem toSQLItems_total : ∀ xs : JsList, isIntoSqlItems xs = true →
    noInvalidDateItems xs = true → ∃ ps, TsUtil.toSQLItems xs = .ok ps
  | .nil, _, _ => ⟨[], rfl⟩
  | .cons hd tl, h, hdt => by
    have hpair := (Bool.and_eq_true _ _).mp (by simpa [isIntoSqlItems] using h)
    have hdpair := (Bool.and_eq_true _ _).mp
      (by simpa [noInvalidDateItems] using hdt)
    obtain ⟨s, hs⟩ := toSQL_total hd hpair.1 hdpair.1
    obtain ⟨ps, hps⟩ := toSQLItems_total tl hpair.2 hdpair.2
    exact ⟨s :: ps, by simp only [TsUtil.toSQLItems, hs, hps]⟩
termination_by structural v => v

end

/-- Claim C10, amended at the Invalid Date: toSQL renders a string as a
single quote, the string verbatim with no escaping, and a closing single
quote; and toSQL is total on IntoSql values containing no Invalid Date,
returning a rendering without throwing.  An Invalid Date is excluded
because it is a Date, hence an IntoSql value, yet toISOString throws a
RangeError on it. -/
theorem claim_C10 :
    (∀ s : String, TsUtil.toSQL (.str s) = .ok (squote ++ s ++ squote)) ∧
    (∀ v : JsVal, isIntoSql v = true → noInvalidDate v = true →
      ∃ out, TsUtil.toSQL v = .ok out) :=
  ⟨fun _ => rfl, toSQL_total⟩

/-- Counterexample to claim C10 as stated: the Invalid Date, produced by
new Date(NaN), is a Date and therefore an IntoSql value, but toSQL on it
throws the RangeError raised by toISOString instead of returning a
string, so toSQL is not total on the IntoSql type. -/
theorem claim_C10_counterexample :
    isIntoSql .invalidDate = true ∧
    TsUtil.toSQL .invalidDate = .error "RangeError: Invalid time value" :=
  ⟨rfl, rfl⟩

/-- Witness for claim C10: a string containing a single quote is rendered
verbatim between quotes, and a nested value using every IntoSql union
member, with no Invalid Date, renders without an error. -/
theorem claim_C10_witness :
    TsUtil.toSQL (.str ("a" ++ squote ++ "b")) =
      .ok (squote ++ ("a" ++ squote ++ "b") ++ squote) ∧
    isIntoSql exIntoSql = true ∧
    noInvalidDate exIntoSql = true ∧
    (∃ out, TsUtil.toSQL exIntoSql = .ok out) :=
  ⟨claim_C10.1 ("a" ++ squote ++ "b"), by decide, by decide,
   claim_C10.2 exIntoSql (by decide) (by decide)⟩

theorem exceptMap_ok_forall2 {ε α β : Type} (f : α → Except ε β) :
    ∀ l : List α, (∀ a ∈ l, ∃ b, f a = .ok b) →
      ∃ out, exceptMap f l = .ok out ∧
        List.Forall₂ (fun a b => f a = .ok b) l out := by
  intro l
  induction l with
  | nil => exact fun _ => ⟨[], rfl, List.Forall₂.nil⟩
  | cons x xs ih =>
    intro h
    obtain ⟨b, hb⟩ := h x (List.mem_cons_self x xs)
    obtain ⟨out, hout, hrel⟩ := ih (fun a ha => h a (List.mem_cons_of_mem x ha))
    exact ⟨b :: out, by simp only [exceptMap, hb, hout],
      List.Forall₂.cons hb hrel⟩

theorem exceptMap_error {ε α β : Type} (f : α → Except ε β) (e : ε) :
    ∀ l : List α, (∀ a ∈ l, (∃ b, f a = .ok b) ∨ f a = .error e) →
      (∃ a ∈ l, f a = .error e) → exceptMap f l = .error e := by
  intro l
  induction l with
  | nil =>
    intro _ hex
    simp at hex
  | cons x xs ih =>
    intro hall hex
    rcases hall x (List.mem_cons_self x xs) with ⟨b, hb⟩ | hb
    · have hex2 : ∃ a ∈ xs, f a = .error e := by
        obtain ⟨a, ha, hfa⟩ := hex
        rcases List.mem_cons.mp ha with rfl | hmem
        · exact absurd (hb.symm.trans hfa) (by simp)
        · exact ⟨a, hmem, hfa⟩
      have hrec := ih (fun a ha => hall a (List.mem_cons_of_mem x ha)) hex2
      simp only [exceptMap, hb, hrec]
    · simp only [exceptMap, hb]

theorem forall2_map_fst {α γ : Type} {rel : α → (α × γ) → Prop}
    (hfst : ∀ a b, rel a b → b.1 = a) :
    ∀ {l : List α} {out : List (α × γ)}, List.Forall₂ rel l out →
      out.map Prod.fst = l := by
  intro l out h
  induction h with
  | nil => rfl
  | cons h1 _ ih => simp [ih, hfst _ _ h1]

theorem vecget_of_ok {r : JsRecord} {len : Option Nat}
    (h : vecLenOf r = .ok len) : ∃ v, JsMap.get r "vector" = some v := by
  unfold vecLenOf at h
  cases hg : JsMap.get r "vector" with
  | none => rw [hg] at h; simp [jsLength] at h
  | some v => exact ⟨v, rfl⟩

theorem mem_keys_of_get {r : JsRecord} {k : String} {v : JsVal}
    (h : JsMap.get r k = some v) : k ∈ keys r := by
  induction r with
  | nil => cases h
  | cons p rest ih =>
    by_cases hk : p.1 = k
    · simp [keys, hk.symm]
    · rw [JsMap.get, if_neg (by simp [hk])] at h
      have hmem := ih h
      simp only [keys, List.map_cons, List.mem_cons]
      exact Or.inr (by simpa [keys] using hmem)

theorem vecCell_ok {sz len : Option Nat} {r : JsRecord}
    (h : vecLenOf r = .ok len) (he : len = sz) :
    vecCell sz r = .ok (JsMap.get r "vector") := by
  simp only [vecCell, h]
  rw [if_pos (by simp [he])]

theorem vecCell_mismatch {sz len : Option Nat} {r : JsRecord}
    (h : vecLenOf r = .ok len) (hne : len ≠ sz) :
    vecCell sz r = .error (.message (invalidMsg sz)) := by
  simp only [vecCell, h]
  rw [if_neg (by simp [hne])]

theorem buildCol_fst {data : List JsRecord} {first : JsRecord} {k : String}
    {b : String × List (Option JsVal)} (h : buildCol data first k = .ok b) :
    b.1 = k := by
  unfold buildCol at h
  split at h
  · split at h
    · simp at h
    · split at h
      · simp at h
      · cases h; rfl
  · cases h; rfl

theorem buildCol_ok_nonvec {data : List JsRecord} {first : JsRecord}
    {k : String} (h : ¬ k = "vector") :
    buildCol data first k = .ok (k, data.map (fun r => JsMap.get r k)) := by
  unfold buildCol
  rw [if_neg (by simp [h])]

/-- Claim C8: convertToTable throws on an empty record array; whenever a
record has a vector whose length differs from the length of the first
record's vector it throws Invalid vector size; and on a non-empty array
whose vector lengths all agree with the first it returns a table with one
column per key of the first record.  The hypothesis states that every
record has a readable vector length, which the claim presupposes by
speaking of the vector field of each record. -/
theorem claim_C8 (first : JsRecord) (rest : List JsRecord)
    (hall : ∀ r ∈ first :: rest, ∃ len, vecLenOf r = .ok len) :
    (convertToTable [] =
      .error (.message "At least one record needs to be provided")) ∧
    ((∃ r ∈ first :: rest, vecLenOf r ≠ vecLenOf first) →
      ∃ sz, vecLenOf first = .ok sz ∧
        convertToTable (first :: rest) = .error (.message (invalidMsg sz))) ∧
    ((∀ r ∈ first :: rest, vecLenOf r = vecLenOf first) →
      ∃ tbl, convertToTable (first :: rest) = .ok tbl ∧
        tbl.map Prod.fst = keys first) := by
  obtain ⟨sz0, hsz0⟩ := hall first (List.mem_cons_self _ _)
  have hvecmem : "vector" ∈ keys first := by
    obtain ⟨v, hv⟩ := vecget_of_ok hsz0
    exact mem_keys_of_get hv
  refine ⟨rfl, ?_, ?_⟩
  · rintro ⟨r, hr, hne⟩
    obtain ⟨lr, hlr⟩ := hall r hr
    have hlenne : lr ≠ sz0 := by
      intro he
      exact hne (by rw [hlr, hsz0, he])
    have hvc : vectorColumn (first :: rest) sz0 =
        .error (.message (invalidMsg sz0)) := by
      unfold vectorColumn
      apply exceptMap_error
      · intro a ha
        obtain ⟨la, hla⟩ := hall a ha
        by_cases hla2 : la = sz0
        · exact .inl ⟨_, vecCell_ok hla hla2⟩
        · exact .inr (vecCell_mismatch hla hla2)
      · exact ⟨r, hr, vecCell_mismatch hlr hlenne⟩
    have herr : buildCol (first :: rest) first "vector" =
        .error (.message (invalidMsg sz0)) := by
      unfold buildCol
      rw [if_pos (by simp)]
      simp only [hsz0, hvc]
    refine ⟨sz0, hsz0, ?_⟩
    show exceptMap (buildCol (first :: rest) first) (keys first) = _
    apply exceptMap_error
    · intro k hk
      by_cases hkv : k = "vector"
      · subst hkv
        exact .inr herr
      · exact .inl ⟨_, buildCol_ok_nonvec hkv⟩
    · exact ⟨"vector", hvecmem, herr⟩
  · intro hallEq
    have hcells : ∀ a ∈ first :: rest, ∃ b, vecCell sz0 a = .ok b := by
      intro a ha
      obtain ⟨la, hla⟩ := hall a ha
      have hla2 : la = sz0 := by
        have h2 := hallEq a ha
        rw [hla, hsz0] at h2
        exact Except.ok.inj h2
      exact ⟨_, vecCell_ok hla hla2⟩
    obtain ⟨col0, hcol0, _⟩ := exceptMap_ok_forall2 (vecCell sz0)
      (first :: rest) hcells
    have hvc0 : vectorColumn (first :: rest) sz0 = .ok col0 := hcol0
    have hcols : ∀ k ∈ keys first,
        ∃ b, buildCol (first :: rest) first k = .ok b := by
      intro k hk
      by_cases hkv : k = "vector"
      · subst hkv
        refine ⟨("vector", col0), ?_⟩
        unfold buildCol
        rw [if_pos (by simp)]
        simp only [hsz0, hvc0]
      · exact ⟨_, buildCol_ok_nonvec hkv⟩
    obtain ⟨tbl, htbl, hrel⟩ := exceptMap_ok_forall2
      (buildCol (first :: rest) first) (keys first) hcols
    exact ⟨tbl, htbl, forall2_map_fst (fun a b hab => buildCol_fst hab) hrel⟩

/-- Witness for claim C8: two records whose vectors have lengths 2 and 1
trigger the Invalid vector size error, and two records with matching
vector lengths produce a table with the columns vector and price of the
first record. -/
theorem claim_C8_witness :
    (∀ r ∈ [exRec1, exRec2], ∃ len, vecLenOf r = .ok len) ∧
    (∃ sz, vecLenOf exRec1 = .ok sz ∧
      convertToTable [exRec1, exRec2] = .error (.message (invalidMsg sz))) ∧
    (∃ tbl, convertToTable [exRec1, exRec3] = .ok tbl ∧
      tbl.map Prod.fst = keys exRec1) := by
  have h12 : ∀ r ∈ [exRec1, exRec2], ∃ len, vecLenOf r = .ok len := by
    intro r hr
    rcases List.mem_cons.mp hr with rfl | hr2
    · exact ⟨some 2, by decide⟩
    rcases List.mem_cons.mp hr2 with rfl | hr3
    · exact ⟨some 1, by decide⟩
    · simp at hr3
  have h13 : ∀ r ∈ [exRec1, exRec3], ∃ len, vecLenOf r = .ok len := by
    intro r hr
    rcases List.mem_cons.mp hr with rfl | hr2
    · exact ⟨some 2, by decide⟩
    rcases List.mem_cons.mp hr2 with rfl | hr3
    · exact ⟨some 2, by decide⟩
    · simp at hr3
  refine ⟨h12, (claim_C8 exRec1 [exRec2] h12).2.1 ⟨exRec2, by simp, by decide⟩,
    (claim_C8 exRec1 [exRec3] h13).2.2 ?_⟩
  intro r hr
  rcases List.mem_cons.mp hr with rfl | hr2
  · rfl
  rcases List.mem_cons.mp hr2 with rfl | hr3
  · decide
  · simp at hr3

namespace Hybrid

theorem mem_insertLe {α : Type} (le : α → α → Bool) (a c : α) :
    ∀ l : List α, c ∈ insertLe le a l ↔ c = a ∨ c ∈ l := by
  intro l
  induction l with
  | nil => simp [insertLe]
  | cons b bs ih =>
    by_cases h : le a b
    · simp [insertLe, h]
    · simp only [insertLe, if_neg h, List.mem_cons, ih]
      tauto

theorem pairwise_insertLe {α : Type} {le : α → α → Bool}
    (htot : ∀ a b, le a b = true ∨ le b a = true)
    (htrans : ∀ a b c, le a b = true → le b c = true → le a c = true)
    (a : α) :
    ∀ l : List α, l.Pairwise (fun x y => le x y = true) →
      (insertLe le a l).Pairwise (fun x y => le x y = true) := by
  intro l
  induction l with
  | nil => intro _; simp [insertLe]
  | cons b bs ih =>
    intro h
    rcases List.pairwise_cons.mp h with ⟨hb, hbs⟩
    by_cases hab : le a b = true
    · simp only [insertLe, if_pos hab]
      refine List.Pairwise.cons ?_ h
      intro c hc
      rcases List.mem_cons.mp hc with rfl | hcbs
      · exact hab
      · exact htrans a b c hab (hb c hcbs)
    · simp only [insertLe, if_neg hab]
      have hba : le b a = true := (htot a b).resolve_left hab
      refine List.Pairwise.cons ?_ (ih hbs)
      intro c hc
      rcases (mem_insertLe le a c bs).mp hc with rfl | hcbs
      · exact hba
      · exact hb c hcbs

theorem pairwise_sortLe {α : Type} {le : α → α → Bool}
    (htot : ∀ a b, le a b = true ∨ le b a = true)
    (htrans : ∀ a b c, le a b = true → le b c = true → le a c = true) :
    ∀ l : List α, (sortLe le l).Pairwise (fun x y => le x y = true) := by
  intro l
  induction l with
  | nil => simp [sortLe]
  | cons a rest ih =>
    simp only [sortLe]
    exact pairwise_insertLe htot htrans a _ ih

theorem rowGet_filter_keep {key : String} {q : String × DbValue → Bool}
    (hq : ∀ p, p.1 = key → q p = true) :
    ∀ r : Row, rowGet (r.filter q) key = rowGet r key := by
  intro r
  induction r with
  | nil => rfl
  | cons p rest ih =>
    by_cases hp : q p = true
    · rw [List.filter_cons_of_pos hp]
      simp only [rowGet, ih]
    · rw [List.filter_cons_of_neg (by simp [hp])]
      have hkey : ¬ p.1 = key := fun he => hp (hq p he)
      have hr : rowGet (p :: rest) key = rowGet rest key := by
        simp only [rowGet]
        rw [if_neg (by simp [hkey])]
      exact ih.trans hr.symm

theorem rowGet_filter_drop {key : String} {q : String × DbValue → Bool}
    (hq : ∀ p, p.1 = key → q p = false) :
    ∀ r : Row, rowGet (r.filter q) key = none := by
  intro r
  induction r with
  | nil => rfl
  | cons p rest ih =>
    by_cases hp : q p = true
    · have hkey : ¬ p.1 = key := by
        intro he
        rw [hq p he] at hp
        cases hp
      rw [List.filter_cons_of_pos hp]
      simp only [rowGet]
      rw [if_neg (by simp [hkey])]
      exact ih
    · rw [List.filter_cons_of_neg (by simp [hp])]
      exact ih

theorem rowGet_projectRow_score (cols : List String) (r : Row) :
    rowGet (projectRow cols r) "_relevance_score" =
      rowGet r "_relevance_score" := by
  cases cols with
  | nil =>
    apply rowGet_filter_keep
    intro p hp
    obtain ⟨p1, p2⟩ := p
    dsimp only at hp
    subst hp
    simp
  | cons c cs =>
    apply rowGet_filter_keep
    intro p hp
    obtain ⟨p1, p2⟩ := p
    dsimp only at hp
    subst hp
    simp

theorem getScore_projectRow (cols : List String) (r : Row) :
    getScore (projectRow cols r) = getScore r := by
  simp only [getScore, rowGet_projectRow_score]

theorem keyScore_projectRow (cols : List String) (r : Row) :
    keyScore (projectRow cols r) = keyScore r := by
  simp only [keyScore, getScore_projectRow]

theorem scoreDescLe_total (a b : Row) :
    scoreDescLe a b = true ∨ scoreDescLe b a = true := by
  simp only [scoreDescLe, decide_eq_true_eq]
  exact le_total _ _

theorem scoreDescLe_trans (a b c : Row) (hab : scoreDescLe a b = true)
    (hbc : scoreDescLe b c = true) : scoreDescLe a c = true := by
  simp only [scoreDescLe, decide_eq_true_eq] at hab hbc ⊢
  exact le_trans hbc hab

theorem finalize_len_sorted (req : SearchRequest) (rows : List Row) :
    (finalize req rows).length ≤ req.limit.toNat ∧
    (finalize req rows).Pairwise (fun a b => keyScore b ≤ keyScore a) := by
  constructor
  · unfold finalize
    rw [List.length_map]
    exact List.length_take_le _ _
  · unfold finalize
    have hs : (sortLe scoreDescLe (dedupFirst rows)).Pairwise
        (fun x y => scoreDescLe x y = true) :=
      pairwise_sortLe scoreDescLe_total scoreDescLe_trans _
    have htake : ((sortLe scoreDescLe (dedupFirst rows)).take
        req.limit.toNat).Pairwise (fun x y => scoreDescLe x y = true) :=
      hs.sublist (List.take_sublist _ _)
    refine htake.map (projectRow req.selectColumns) ?_
    intro a b hab
    rw [keyScore_projectRow, keyScore_projectRow]
    simpa [scoreDescLe] using hab

theorem execute_ok_finalize {req : SearchRequest} {engine : NativeEngine}
    {out : List Row} (h : execute req engine = .ok out) :
    ∃ rows, out = finalize req rows := by
  unfold execute at h
  dsimp only at h
  repeat' split at h
  all_goals
    first
      | exact ⟨_, (Except.ok.inj h).symm⟩
      | exact ⟨_, h.symm⟩
      | exact absurd h (by simp)

/-- Claim C1: for every positive limit, a successful execute returns at
most limit rows, ordered non-increasing in the relevance score carried by
the rows. -/
theorem claim_C1 (req : SearchRequest) (engine : NativeEngine)
    (out : List Row) (hpos : 0 < req.limit)
    (hout : execute req engine = .ok out) :
    (out.length : Int) ≤ req.limit ∧
    out.Pairwise (fun a b => ∀ qa qb, getScore a = some qa →
      getScore b = some qb → qb ≤ qa) := by
  obtain ⟨rows, rfl⟩ := execute_ok_finalize hout
  obtain ⟨hlen, hpw⟩ := finalize_len_sorted req rows
  constructor
  · omega
  · refine hpw.imp ?_
    intro a b hk qa qb hqa hqb
    have ha : keyScore a = qa := by
      simp only [keyScore, hqa, Option.getD_some]
    have hb : keyScore b = qb := by
      simp only [keyScore, hqb, Option.getD_some]
    rw [ha, hb] at hk
    exact hk

/-- Witness for claim C1: a hybrid query with limit 5 and a reranker
returning two scored rows; the output has two rows with scores 3 then
1. -/
theorem claim_C1_witness :
    (0 < exReq.limit) ∧ execute exReq exEngine = .ok exOut ∧
    ((exOut.length : Int) ≤ exReq.limit ∧
      exOut.Pairwise (fun a b => ∀ qa qb, getScore a = some qa →
        getScore b = some qb → qb ≤ qa)) :=
  ⟨by decide, by decide, claim_C1 exReq exEngine exOut (by decide) (by decide)⟩

end Hybrid

namespace Hybrid

theorem projectRow_drops (cols : List String) (r0 : Row) (key : String)
    (hkey : key = "_distance" ∨ key = "_score") (hnot : key ∉ cols) :
    rowGet (projectRow cols r0) key = none := by
  have hbeq : (key == "_relevance_score") = false := by
    rcases hkey with rfl | rfl <;> decide
  have hor : (key == "_distance" || key == "_score") = true := by
    rcases hkey with rfl | rfl <;> decide
  cases cols with
  | nil =>
    apply rowGet_filter_drop
    intro p hp
    obtain ⟨p1, p2⟩ := p
    dsimp only at hp
    subst hp
    rw [hor]
    rfl
  | cons c cs =>
    apply rowGet_filter_drop
    intro p hp
    obtain ⟨p1, p2⟩ := p
    dsimp only at hp
    subst hp
    have hc : (c :: cs).contains p1 = false := by
      cases hcon : (c :: cs).contains p1
      · rfl
      · exact absurd (List.mem_of_elem_eq_true hcon) hnot
    rw [hc, hbeq]
    rfl

/-- Claim C4, amended as the reranker test of src/unnamed/part_001 forces:
the path-native score columns are absent from every output row unless
explicitly named in the selection, while the relevance score column is
retained in the output even when not selected. -/
theorem claim_C4 (req : SearchRequest) (engine : NativeEngine)
    (out : List Row) (hout : execute req engine = .ok out)
    (r : Row) (hr : r ∈ out) :
    ("_distance" ∉ req.selectColumns → rowGet r "_distance" = none) ∧
    ("_score" ∉ req.selectColumns → rowGet r "_score" = none) := by
  obtain ⟨rows, rfl⟩ := execute_ok_finalize hout
  unfold finalize at hr
  obtain ⟨r0, _, rfl⟩ := List.mem_map.mp hr
  exact ⟨fun hnot => projectRow_drops _ r0 _ (Or.inl rfl) hnot,
    fun hnot => projectRow_drops _ r0 _ (Or.inr rfl) hnot⟩

/-- Counterexample to claim C4 as stated: in the scenario of the
custom-reranker test, only the text column is selected, yet the output
row still carries the relevance score column, as the test itself
expects. -/
theorem claim_C4_counterexample :
    execute testReq testEngine = .ok [testOutRow] ∧
    rowGet testOutRow "_relevance_score" = some (.num 99) ∧
    "_relevance_score" ∉ testReq.selectColumns :=
  ⟨by decide, by decide, by decide⟩

/-- Witness for claim C4: in the test scenario the distance and FTS score
columns are indeed absent from the output row. -/
theorem claim_C4_witness :
    execute testReq testEngine = .ok [testOutRow] ∧
    testOutRow ∈ [testOutRow] ∧
    ("_distance" ∉ testReq.selectColumns → rowGet testOutRow "_distance" = none) ∧
    ("_score" ∉ testReq.selectColumns → rowGet testOutRow "_score" = none) :=
  ⟨by decide, by decide,
   (claim_C4 testReq testEngine [testOutRow] (by decide) testOutRow
     (by decide)).1,
   (claim_C4 testReq testEngine [testOutRow] (by decide) testOutRow
     (by decide)).2⟩

theorem checkContract_error {n : Nat} {out : List Row} {e : QError}
    (h : checkContract n out = .error e) :
    ∃ m, e = .contractViolationError m := by
  unfold checkContract at h
  split at h
  · exact ⟨_, (Except.error.inj h).symm⟩
  · split at h
    · cases h
    · exact ⟨_, (Except.error.inj h).symm⟩

theorem execute_no_validationError {req : SearchRequest}
    {engine : NativeEngine} (hva : validate req = .ok ()) :
    ∀ msg, execute req engine ≠ .error (.validationError msg) := by
  intro msg h
  unfold execute at h
  rw [hva] at h
  dsimp only at h
  repeat' split at h
  all_goals
    first
      | (rename_i e heq
         rw [Except.error.inj h] at heq
         obtain ⟨m, hm⟩ := checkContract_error heq
         exact QError.noConfusion hm)
      | exact absurd h (by simp)

/-- Claim C5: builder steps never fail, validation happens at execute
time, and execute fails with a ValidationError exactly when the
accumulated request has a non-positive limit, or has a reranker set with
neither a vector query nor a text query configured; for any call order
this is decided only by the accumulated request. -/
theorem claim_C5 (ops : List BuilderOp) (engine : NativeEngine) :
    (∃ msg, execute (buildRequest ops) engine =
      .error (.validationError msg)) ↔
    ((buildRequest ops).limit ≤ 0 ∨
      ((buildRequest ops).reranker.isSome ∧
        (buildRequest ops).vectorQuery = none ∧
        (buildRequest ops).textQuery = none)) := by
  generalize buildRequest ops = req
  constructor
  · rintro ⟨msg, hmsg⟩
    by_contra hcon
    rw [not_or] at hcon
    obtain ⟨hlim, hrk⟩ := hcon
    have hva : validate req = .ok () := by
      unfold validate
      rw [if_neg hlim]
      split
      · rename_i hr hv ht
        exact absurd ⟨show req.reranker.isSome = true by rw [hr]; rfl, hv, ht⟩
          hrk
      · rfl
    exact execute_no_validationError hva msg hmsg
  · intro h
    have hval : ∃ msg, validate req = .error (.validationError msg) := by
      rcases h with hlim | ⟨hsome, hv, ht⟩
      · exact ⟨_, by unfold validate; rw [if_pos hlim]⟩
      · by_cases hlim : req.limit ≤ 0
        · exact ⟨_, by unfold validate; rw [if_pos hlim]⟩
        · obtain ⟨rr, hrr⟩ := Option.isSome_iff_exists.mp hsome
          refine ⟨"reranker is set but no search mode is configured", ?_⟩
          unfold validate
          rw [if_neg hlim, hrr, hv, ht]
    obtain ⟨msg, hmsg⟩ := hval
    refine ⟨msg, ?_⟩
    unfold execute
    rw [hmsg]

end Hybrid

namespace Hybrid

theorem findIdxq_of_mem {r : Row} : ∀ {rows : List Row}, r ∈ rows →
    rows.findIdx? (fun x => x == r) =
      some (rows.findIdx (fun x => x == r)) := by
  intro rows
  induction rows with
  | nil => intro h; cases h
  | cons a l ih =>
    intro h
    by_cases har : (a == r) = true
    · simp [List.findIdx?_cons, List.findIdx_cons, har]
    · have hmem : r ∈ l := by
        rcases List.mem_cons.mp h with rfl | hl
        · simp at har
        · exact hl
      simp [List.findIdx?_cons, List.findIdx_cons, har, ih hmem]

theorem findIdxq_of_not_mem {r : Row} : ∀ {rows : List Row}, r ∉ rows →
    rows.findIdx? (fun x => x == r) = none := by
  intro rows
  induction rows with
  | nil => intro _; rfl
  | cons a l ih =>
    intro h
    have har : (a == r) = false := by
      by_cases he : a = r
      · exact absurd (he ▸ List.mem_cons_self a l) h
      · exact beq_eq_false_iff_ne.mpr he
    simp [List.findIdx?_cons, har,
      ih (fun hm => h (List.mem_cons_of_mem a hm))]

theorem rankIn_of_mem {rows : List Row} {r : Row} (h : r ∈ rows) :
    rankIn rows r = some (rows.findIdx (fun x => x == r) + 1) := by
  simp [rankIn, findIdxq_of_mem h]

theorem rankIn_of_not_mem {rows : List Row} {r : Row} (h : r ∉ rows) :
    rankIn rows r = none := by
  simp [rankIn, findIdxq_of_not_mem h]

theorem rrfScore_sum (k : ℚ) (vec fts : List Row) (r : Row) :
    rrfScore k vec fts r =
      (([vec, fts].filter (fun L => decide (r ∈ L))).map
        (fun L => 1 / (k + ((L.findIdx (fun x => x == r) + 1 : Nat) : ℚ)))).sum := by
  by_cases hv : r ∈ vec <;> by_cases hf : r ∈ fts <;>
    simp [rrfScore, rrfContrib, rankIn_of_mem, rankIn_of_not_mem, hv, hf]

theorem rrf_exA : rrfScore 60 [rowA, rowB] [rowB, rowC] rowA = 1/61 := by
  have h1 : rankIn [rowA, rowB] rowA = some 1 := by decide
  have h2 : rankIn [rowB, rowC] rowA = none := by decide
  unfold rrfScore
  rw [h1, h2]
  simp [rrfContrib]
  norm_num

theorem rrf_exB : rrfScore 60 [rowA, rowB] [rowB, rowC] rowB =
    1/62 + 1/61 := by
  have h1 : rankIn [rowA, rowB] rowB = some 2 := by decide
  have h2 : rankIn [rowB, rowC] rowB = some 1 := by decide
  unfold rrfScore
  rw [h1, h2]
  simp [rrfContrib]
  norm_num

theorem rrf_exC : rrfScore 60 [rowA, rowB] [rowB, rowC] rowC = 1/62 := by
  have h1 : rankIn [rowA, rowB] rowC = none := by decide
  have h2 : rankIn [rowB, rowC] rowC = some 2 := by decide
  unfold rrfScore
  rw [h1, h2]
  simp [rrfContrib]
  norm_num

theorem rrf_exBC : rrfBefore 60 [rowA, rowB] [rowB, rowC]
    (1, rowB) (2, rowC) = true := by
  norm_num [rrfBefore, rrf_exB, rrf_exC]

theorem rrf_exAB : rrfBefore 60 [rowA, rowB] [rowB, rowC]
    (0, rowA) (1, rowB) = false := by
  norm_num [rrfBefore, rrf_exA, rrf_exB]

theorem rrf_exAC : rrfBefore 60 [rowA, rowB] [rowB, rowC]
    (0, rowA) (2, rowC) = true := by
  norm_num [rrfBefore, rrf_exA, rrf_exC]

theorem rrf_example_eval : rrfRerank 60 [rowA, rowB] [rowB, rowC] =
    [[("id", .str "B"), ("_relevance_score", .num (1/62 + 1/61))],
     [("id", .str "A"), ("_relevance_score", .num (1/61))],
     [("id", .str "C"), ("_relevance_score", .num (1/62))]] := by
  have hdedup : dedupFirst ([rowA, rowB] ++ [rowB, rowC]) =
      [rowA, rowB, rowC] := by decide
  unfold rrfRerank
  rw [hdedup]
  dsimp only
  have henum : ([rowA, rowB, rowC] : List Row).enum =
      [(0, rowA), (1, rowB), (2, rowC)] := by decide
  rw [henum]
  have hsort : sortLe (rrfBefore 60 [rowA, rowB] [rowB, rowC])
      [(0, rowA), (1, rowB), (2, rowC)] =
      [(1, rowB), (0, rowA), (2, rowC)] := by
    simp [sortLe, insertLe, rrf_exBC, rrf_exAB, rrf_exAC]
  rw [hsort]
  simp only [List.map_cons, List.map_nil]
  rw [rrf_exA, rrf_exB, rrf_exC]
  simp [setCol, rowA, rowB, rowC]

/-- Claim C2, amended in the score of row B: each RRF score is the sum,
over the lists containing the row, of the reciprocal 1 / (k + rank) at
the 1-based rank of the row in that list; in the example with vector
ranks A first and B second, and FTS ranks B first and C second, k = 60
gives B the score 1/62 + 1/61 (not 1/61 + 1/61, since the vector rank of
B is 2), A the score 1/61, C the score 1/62, and the output order B, A,
C. -/
theorem claim_C2 :
    (∀ (k : ℚ) (vec fts : List Row) (r : Row),
      rrfScore k vec fts r =
        (([vec, fts].filter (fun L => decide (r ∈ L))).map
          (fun L => 1 / (k + ((L.findIdx (fun x => x == r) + 1 : Nat) : ℚ)))).sum) ∧
    rrfRerank 60 [rowA, rowB] [rowB, rowC] =
      [[("id", .str "B"), ("_relevance_score", .num (1/62 + 1/61))],
       [("id", .str "A"), ("_relevance_score", .num (1/61))],
       [("id", .str "C"), ("_relevance_score", .num (1/62))]] :=
  ⟨rrfScore_sum, rrf_example_eval⟩

/-- Counterexample to claim C2 as stated: the claim gives B the score
1/61 + 1/61, but the reciprocal rank formula the claim itself states
gives B the score 1/62 + 1/61, because the rank of B in the vector list
is 2; the two values differ. -/
theorem claim_C2_counterexample :
    (rrfRerank 60 [rowA, rowB] [rowB, rowC]).map getScore =
      [some (1/62 + 1/61), some (1/61), some (1/62)] ∧
    (1/62 + 1/61 : ℚ) ≠ 1/61 + 1/61 := by
  constructor
  · rw [rrf_example_eval]
    simp [getScore, rowGet]
  · norm_num

end Hybrid
